import Mathlib

/-!
Verification of the add-on update resolution engine (xbmc/addons/AddonRepos).

The development shallowly embeds the code of `AddonRepos.cpp` / `AddonRepos.h`:
records are `Addon` structures, the latest-version maps are functions from
package id to `Option Addon`, the by-repo structures are nested functions, and
the external collaborators (database fetch, compatibility manager) are
parameters.  Version values are natural numbers: the source delegates version
ordering to `CAddonVersion`, whose order is total, and every property proved
here uses only that order.
-/

namespace AddonRepos

/-- A package record, embedding the fields of `IAddon` that `CAddonRepos`
reads: `ID()`, `Origin()`, `Path()` and `Version()`. -/
structure Addon where
  id : String
  origin : String
  path : String
  version : Nat
deriving DecidableEq, Repr

/-- Struct `RepoInfo` from `AddonRepos.h`: a trusted repository id together
with its origin path. -/
structure RepoInfo where
  m_repoId : String
  m_origin : String
deriving DecidableEq, Repr

/-- Modelled from the spec: the reserved sentinel origin meaning
"built-in/system".  Its definition (`ORIGIN_SYSTEM`) lives outside the
excerpted sources; every use here treats it as an opaque distinguished
string. -/
def ORIGIN_SYSTEM : String := "b6a50484-93a0-4afb-a01c-8d17e059bda2"

/-- Modelled from the spec: `StringUtils::StartsWithNoCase` (utils/StringUtils,
outside the excerpt): case-insensitive test that the second argument is a
leading piece of the first. -/
def startsWithNoCase (str1 str2 : String) : Bool :=
  str2.toLower.isPrefixOf str1.toLower

/-- Splitting a character list at a delimiter, keeping empty tokens.  Models
the behaviour of `StringUtils::Split` (utils/StringUtils, outside the excerpt)
on non-empty input. -/
def splitList (c : Char) : List Char → List (List Char)
  | [] => [[]]
  | x :: xs =>
    if x == c then [] :: splitList c xs
    else
      match splitList c xs with
      | [] => [[x]]
      | y :: ys => (x :: y) :: ys

/-- String-level split at a delimiter character. -/
def splitChar (c : Char) (s : String) : List String :=
  (splitList c s.data).map String.mk

/-- `LoadOfficialRepoInfos` from `AddonRepos.cpp`: splits the configuration
string (`CCompileInfo::GetOfficialAddonRepos()`, here a parameter) at commas,
and for each entry takes `front()` of the bar-split as the repo id and
`back()` as the origin. -/
def loadOfficialRepoInfos (officialAddonReposConfig : String) : List RepoInfo :=
  (splitChar ',' officialAddonReposConfig).map (fun addonRepo =>
    let tmpRepoInfo := splitChar '|' addonRepo
    { m_repoId := tmpRepoInfo.headD "", m_origin := tmpRepoInfo.getLastD "" })

/-- `CAddonRepos::IsFromOfficialRepo` (two-argument overload): the origin is
the system sentinel, or some registry entry matches the comparator.  The
registry (the static `officialRepoInfos`) is passed explicitly. -/
def isFromOfficialRepo (repos : List RepoInfo) (addon : Addon)
    (bCheckAddonPath : Bool) : Bool :=
  (addon.origin == ORIGIN_SYSTEM) ||
    repos.any (fun officialRepo =>
      if bCheckAddonPath then
        addon.origin == officialRepo.m_repoId &&
          startsWithNoCase addon.path officialRepo.m_origin
      else
        addon.origin == officialRepo.m_repoId)

/-- `CAddonRepos::IsFromOfficialRepo` (one-argument overload): delegates to
the two-argument form with the path check disabled. -/
def isFromOfficialRepoNoPath (repos : List RepoInfo) (addon : Addon) : Bool :=
  isFromOfficialRepo repos addon false

/-- A latest-version map (`std::map<std::string, std::shared_ptr<IAddon>>`),
embedded extensionally. -/
abbrev MapA := String → Option Addon

def emptyMapA : MapA := fun _ => none

/-- `map[key] = value` on a latest-version map. -/
def mapInsert (k : String) (a : Addon) (m : MapA) : MapA :=
  fun x => if x = k then some a else m x

/-- `CAddonRepos::AddAddonIfLatest` (single-map overload): replace-if-absent-
or-strictly-newer. -/
def addAddonIfLatest (addonToAdd : Addon) (m : MapA) : MapA :=
  match m addonToAdd.id with
  | none => mapInsert addonToAdd.id addonToAdd m
  | some latestKnown =>
    if latestKnown.version < addonToAdd.version then
      mapInsert addonToAdd.id addonToAdd m
    else m

/-- The nested per-repository latest map
(`std::map<std::string, std::map<std::string, std::shared_ptr<IAddon>>>`). -/
abbrev MapByRepo := String → Option MapA

def emptyByRepo : MapByRepo := fun _ => none

/-- `CAddonRepos::AddAddonIfLatest` (per-repository overload). -/
def addAddonIfLatestByRepo (repoId : String) (addonToAdd : Addon)
    (m : MapByRepo) : MapByRepo :=
  match m repoId with
  | none =>
    fun r => if r = repoId then
        some (mapInsert addonToAdd.id addonToAdd emptyMapA)
      else m r
  | some latestVersionEntryByRepo =>
    match latestVersionEntryByRepo addonToAdd.id with
    | none =>
      fun r => if r = repoId then
          some (mapInsert addonToAdd.id addonToAdd latestVersionEntryByRepo)
        else m r
    | some latestKnown =>
      if latestKnown.version < addonToAdd.version then
        fun r => if r = repoId then
            some (mapInsert addonToAdd.id addonToAdd latestVersionEntryByRepo)
          else m r
      else m

/-- One iteration of the loop body of `CAddonRepos::SetupLatestVersionMaps`:
classify with the strict (path-checked) predicate, insert into the matching
candidate-latest map, and always insert into the per-repo map under the
record's origin (the key of `m_addonsByRepoMap`). -/
def setupStep (repos : List RepoInfo) (st : MapA × MapA × MapByRepo)
    (addonToAdd : Addon) : MapA × MapA × MapByRepo :=
  if isFromOfficialRepo repos addonToAdd true then
    (addAddonIfLatest addonToAdd st.1, st.2.1,
      addAddonIfLatestByRepo addonToAdd.origin addonToAdd st.2.2)
  else
    (st.1, addAddonIfLatest addonToAdd st.2.1,
      addAddonIfLatestByRepo addonToAdd.origin addonToAdd st.2.2)

/-- `CAddonRepos::SetupLatestVersionMaps`: clears the three maps and processes
every record of `m_addonsByRepoMap`; `records` is the sequence of records in
the structure's iteration order (each bucket's key equals its records'
`Origin()`).  Result: `(m_latestOfficialVersions, m_latestPrivateVersions,
m_latestVersionsByRepo)`. -/
def setupLatestVersionMaps (repos : List RepoInfo) (records : List Addon) :
    MapA × MapA × MapByRepo :=
  records.foldl (setupStep repos) (emptyMapA, emptyMapA, emptyByRepo)

/-- The multi-valued by-repo structure
(`std::map<std::string, std::multimap<std::string, std::shared_ptr<IAddon>>>`),
read at an (origin, id) pair: the records of that bucket in insertion
order. -/
abbrev ByRepoMulti := String → String → List Addon

def emptyByRepoMulti : ByRepoMulti := fun _ _ => []

/-- One iteration of the population loop of
`CAddonRepos::LoadAddonsFromDatabase`: a compatible record is inserted into
`m_addonsByRepoMap[origin]` under its id (multimap insert appends to the
bucket). -/
def loadStep (isCompatible : Addon → Bool) (m : ByRepoMulti)
    (addon : Addon) : ByRepoMulti :=
  if isCompatible addon then
    fun o i => if o = addon.origin ∧ i = addon.id then m o i ++ [addon] else m o i
  else m

/-- The `m_addonsByRepoMap` population of `CAddonRepos::LoadAddonsFromDatabase`:
the database fetch (`m_allAddons`) and the compatibility collaborator
(`m_addonMgr.IsCompatible`) are parameters. -/
def loadAddonsFromDatabase (isCompatible : Addon → Bool)
    (allAddons : List Addon) : ByRepoMulti :=
  allAddons.foldl (loadStep isCompatible) emptyByRepoMulti

/-- `CAddonRepos::FindAddonAndCheckForUpdate`: outer `none` means the id is
absent from the map (the C++ function returns false); `some u` means found,
with `u` the value written to the out-parameter (an update, or `none` for
"found but up to date").  `disabled` is
`m_addonMgr.IsAddonDisabledWithReason(id, AddonDisabledReason::INCOMPATIBLE)`. -/
def findAddonAndCheckForUpdate (disabled : String → Bool)
    (addonToCheck : Addon) (m : MapA) : Option (Option Addon) :=
  match m addonToCheck.id with
  | some remote =>
    if addonToCheck.version < remote.version ∨ disabled addonToCheck.id = true then
      some (some remote)
    else
      some none
  | none => none

/-- `CAddonRepos::DoAddonUpdateCheck`: returns the C++ boolean result together
with the final value of the `update` out-parameter (reset to null on entry). -/
def doAddonUpdateCheck (disabled : String → Bool) (addon : Addon)
    (latestOfficialVersions latestPrivateVersions : MapA) : Bool × Option Addon :=
  if addon.origin = ORIGIN_SYSTEM then
    match findAddonAndCheckForUpdate disabled addon latestOfficialVersions with
    | none => (false, none)
    | some update => (update.isSome, update)
  else
    match findAddonAndCheckForUpdate disabled addon latestOfficialVersions with
    | some update => (update.isSome, update)
    | none =>
      match findAddonAndCheckForUpdate disabled addon latestPrivateVersions with
      | none => (false, none)
      | some update => (update.isSome, update)

/-! Sample concrete records and maps, used by witnesses and counterexamples. -/

/-- A non-system installed record. -/
def addonA0 : Addon := { id := "A", origin := "repoX", path := "p", version := 1 }

/-- A remote record with the same id and version as `addonA0`. -/
def remoteA : Addon := { id := "A", origin := "official1", path := "q", version := 1 }

/-- A strictly newer remote record for id A. -/
def remoteA9 : Addon := { id := "A", origin := "repoX", path := "q9", version := 9 }

/-- A system-origin installed record. -/
def addonSys : Addon := { id := "S", origin := ORIGIN_SYSTEM, path := "p", version := 1 }

/-- A strictly newer remote record for id S. -/
def remoteS9 : Addon := { id := "S", origin := "repoX", path := "q", version := 9 }

/-- A latest map holding `remoteA` under id A. -/
def mapOffA : MapA := fun k => if k = "A" then some remoteA else none

/-- A latest map holding `remoteA9` under id A. -/
def mapPrivA9 : MapA := fun k => if k = "A" then some remoteA9 else none

/-- A latest map holding `remoteS9` under id S. -/
def mapPrivS9 : MapA := fun k => if k = "S" then some remoteS9 else none

/-! ## Update resolver -/

/-- Claim C1: for a non-system installed record whose id is found in
`latestOfficial`, the result of `DoAddonUpdateCheck` does not depend on
`latestPrivate` (the private map is never consulted), and when the official
record's version is not newer and the installed record is not
disabled-incompatible, the result is no update. -/
theorem doAddonUpdateCheck_official_first (disabled : String → Bool)
    (a r : Addon) (off priv priv' : MapA)
    (hsys : a.origin ≠ ORIGIN_SYSTEM) (hfound : off a.id = some r) :
    doAddonUpdateCheck disabled a off priv = doAddonUpdateCheck disabled a off priv' ∧
    (¬ a.version < r.version → disabled a.id = false →
      doAddonUpdateCheck disabled a off priv = (false, none)) := by
  have hfind : findAddonAndCheckForUpdate disabled a off =
      some (if a.version < r.version ∨ disabled a.id = true then some r else none) := by
    simp only [findAddonAndCheckForUpdate, hfound]
    by_cases hc : a.version < r.version ∨ disabled a.id = true <;> simp [hc]
  constructor
  · simp [doAddonUpdateCheck, if_neg hsys, hfind]
  · intro hver hdis
    simp [doAddonUpdateCheck, if_neg hsys, hfind, hver, hdis]

/-- Witness for C1: with a same-version official record and a strictly newer
private-only record, the private map is ignored and no update results. -/
theorem doAddonUpdateCheck_official_first_witness :
    doAddonUpdateCheck (fun _ => false) addonA0 mapOffA emptyMapA =
      doAddonUpdateCheck (fun _ => false) addonA0 mapOffA mapPrivA9 ∧
    (¬ addonA0.version < remoteA.version → (fun _ => false) addonA0.id = false →
      doAddonUpdateCheck (fun _ => false) addonA0 mapOffA emptyMapA = (false, none)) :=
  doAddonUpdateCheck_official_first (fun _ => false) addonA0 remoteA mapOffA
    emptyMapA mapPrivA9 (by decide) (by decide)

/-- Claim C2: when the installed record's id is found in the searched latest
map, an update is offered exactly when the found version is strictly greater
or the installed package is disabled as incompatible; in particular a
same-version record is returned as the update when the installed package is
disabled-incompatible. -/
theorem findAddonAndCheckForUpdate_update_iff (disabled : String → Bool)
    (a r : Addon) (m off priv : MapA)
    (hm : m a.id = some r) (hoff : off a.id = some r) :
    (findAddonAndCheckForUpdate disabled a m = some (some r) ↔
      (a.version < r.version ∨ disabled a.id = true)) ∧
    (a.version = r.version → disabled a.id = true →
      doAddonUpdateCheck disabled a off priv = (true, some r)) := by
  constructor
  · constructor
    · intro h
      by_cases hc : a.version < r.version ∨ disabled a.id = true
      · exact hc
      · simp [findAddonAndCheckForUpdate, hm, hc] at h
    · intro hc
      simp [findAddonAndCheckForUpdate, hm, hc]
  · intro _hver hdis
    have hfind : findAddonAndCheckForUpdate disabled a off = some (some r) := by
      simp [findAddonAndCheckForUpdate, hoff, hdis]
    by_cases hs : a.origin = ORIGIN_SYSTEM
    · simp [doAddonUpdateCheck, if_pos hs, hfind]
    · simp [doAddonUpdateCheck, if_neg hs, hfind]

/-- Witness for C2: a same-version remote record is offered as a remediation
update for a disabled-incompatible installed record. -/
theorem findAddonAndCheckForUpdate_update_iff_witness :
    (findAddonAndCheckForUpdate (fun _ => true) addonA0 mapOffA = some (some remoteA) ↔
      (addonA0.version < remoteA.version ∨ (fun _ => true) addonA0.id = true)) ∧
    (addonA0.version = remoteA.version → (fun _ => true) addonA0.id = true →
      doAddonUpdateCheck (fun _ => true) addonA0 mapOffA emptyMapA = (true, some remoteA)) :=
  findAddonAndCheckForUpdate_update_iff (fun _ => true) addonA0 remoteA
    mapOffA mapOffA emptyMapA (by decide) (by decide)

/-- Claim C3: for a system-origin installed record only `latestOfficial` is
searched: the result does not depend on `latestPrivate`, and when the id is
absent from `latestOfficial` the result is no update, whatever
`latestPrivate` holds. -/
theorem doAddonUpdateCheck_system_only_official (disabled : String → Bool)
    (a : Addon) (off priv priv' : MapA) (hsys : a.origin = ORIGIN_SYSTEM) :
    doAddonUpdateCheck disabled a off priv = doAddonUpdateCheck disabled a off priv' ∧
    (off a.id = none → doAddonUpdateCheck disabled a off priv = (false, none)) := by
  constructor
  · simp [doAddonUpdateCheck, if_pos hsys]
  · intro habs
    have hfind : findAddonAndCheckForUpdate disabled a off = none := by
      simp [findAddonAndCheckForUpdate, habs]
    simp [doAddonUpdateCheck, if_pos hsys, hfind]

/-- Witness for C3: a system record with a strictly newer version present only
in the private map still gets no update. -/
theorem doAddonUpdateCheck_system_only_official_witness :
    doAddonUpdateCheck (fun _ => false) addonSys emptyMapA mapPrivS9 =
      doAddonUpdateCheck (fun _ => false) addonSys emptyMapA emptyMapA ∧
    (emptyMapA addonSys.id = none →
      doAddonUpdateCheck (fun _ => false) addonSys emptyMapA mapPrivS9 = (false, none)) :=
  doAddonUpdateCheck_system_only_official (fun _ => false) addonSys
    emptyMapA mapPrivS9 emptyMapA (by decide)

/-- Claim C10: `DoAddonUpdateCheck` returns true exactly when its out-parameter
ends up holding an update record; in every false case (the out-parameter being
reset on entry) the out-parameter is null. -/
theorem doAddonUpdateCheck_ret_iff_update (disabled : String → Bool)
    (addon : Addon) (off priv : MapA) :
    (doAddonUpdateCheck disabled addon off priv).1 = true ↔
      (doAddonUpdateCheck disabled addon off priv).2 ≠ none := by
  unfold doAddonUpdateCheck
  by_cases h : addon.origin = ORIGIN_SYSTEM
  · simp only [if_pos h]
    cases hf : findAddonAndCheckForUpdate disabled addon off with
    | none => simp
    | some u => cases u <;> simp
  · simp only [if_neg h]
    cases hf : findAddonAndCheckForUpdate disabled addon off with
    | some u => cases u <;> simp
    | none =>
      cases hg : findAddonAndCheckForUpdate disabled addon priv with
      | none => simp
      | some u => cases u <;> simp

/-! ## Official-repo classification -/

/-- Claim C4: the classification predicate returns true exactly when the
origin is the system sentinel, or some registry entry's repo id equals the
origin and, when the path check is requested, the path starts (case-
insensitively) with that entry's origin; the one-argument call shape is the
two-argument one with the path check off. -/
theorem isFromOfficialRepo_spec (repos : List RepoInfo) (addon : Addon)
    (bCheckAddonPath : Bool) :
    (isFromOfficialRepo repos addon bCheckAddonPath = true ↔
      (addon.origin = ORIGIN_SYSTEM ∨
        ∃ ri ∈ repos, addon.origin = ri.m_repoId ∧
          (bCheckAddonPath = true → startsWithNoCase addon.path ri.m_origin = true))) ∧
    isFromOfficialRepoNoPath repos addon = isFromOfficialRepo repos addon false := by
  refine ⟨?_, rfl⟩
  cases bCheckAddonPath with
  | false =>
    simp [isFromOfficialRepo, List.any_eq_true]
  | true =>
    simp [isFromOfficialRepo, List.any_eq_true, and_assoc]

/-! ## Latest-version index builder: pointwise characterisation -/

/-- Value of a latest map after one `AddAddonIfLatest` call, at any key. -/
lemma addAddonIfLatest_at (a : Addon) (m : MapA) (k : String) :
    addAddonIfLatest a m k =
      if k = a.id then
        (match m a.id with
         | none => some a
         | some latestKnown =>
           if latestKnown.version < a.version then some a else some latestKnown)
      else m k := by
  unfold addAddonIfLatest
  cases hm : m a.id with
  | none =>
    by_cases hk : k = a.id <;> simp [mapInsert, hk, hm]
  | some latestKnown =>
    by_cases hv : latestKnown.version < a.version
    · by_cases hk : k = a.id <;> simp [mapInsert, hk, hm, hv]
    · by_cases hk : k = a.id <;> simp [mapInsert, hk, hm, hv]

/-- Reading the nested by-repo map at a (repo, id) pair. -/
def atRK (m : MapByRepo) (r k : String) : Option Addon :=
  (m r).bind (fun inner => inner k)

/-- Value of the by-repo map after one `AddAddonIfLatest` call, at any
(repo, id) pair. -/
lemma addAddonIfLatestByRepo_at (rid : String) (a : Addon) (m : MapByRepo)
    (r k : String) :
    atRK (addAddonIfLatestByRepo rid a m) r k =
      if r = rid ∧ k = a.id then
        (match atRK m rid a.id with
         | none => some a
         | some latestKnown =>
           if latestKnown.version < a.version then some a else some latestKnown)
      else atRK m r k := by
  unfold addAddonIfLatestByRepo
  cases hm : m rid with
  | none =>
    by_cases hr : r = rid
    · by_cases hk : k = a.id <;>
        simp [atRK, mapInsert, emptyMapA, hr, hk, hm]
    · simp [atRK, hr, hm]
  | some inner =>
    cases hi : inner a.id with
    | none =>
      by_cases hr : r = rid
      · by_cases hk : k = a.id <;>
          simp [atRK, mapInsert, hr, hk, hm, hi]
      · simp [atRK, hr, hm, hi]
    | some latestKnown =>
      by_cases hv : latestKnown.version < a.version
      · by_cases hr : r = rid
        · by_cases hk : k = a.id <;>
            simp [atRK, mapInsert, hr, hk, hm, hi, hv]
        · simp [atRK, hr, hm, hi, hv]
      · by_cases hr : r = rid
        · by_cases hk : k = a.id <;>
            simp [atRK, hr, hk, hm, hi, hv]
        · simp [atRK, hr, hm, hi, hv]

/-- Running maximum of the versions of the records satisfying a predicate. -/
def stepVer (acc : Option Nat) (v : Nat) : Option Nat :=
  match acc with
  | none => some v
  | some w => some (max w v)

def foldVer (q : Addon → Bool) (l : List Addon) (acc : Option Nat) : Option Nat :=
  l.foldl (fun acc a => if q a then stepVer acc a.version else acc) acc

lemma foldVer_nil (q : Addon → Bool) (acc : Option Nat) :
    foldVer q [] acc = acc := rfl

lemma foldVer_cons (q : Addon → Bool) (a : Addon) (l : List Addon)
    (acc : Option Nat) :
    foldVer q (a :: l) acc =
      foldVer q l (if q a then stepVer acc a.version else acc) := rfl

lemma stepVer_comm (acc : Option Nat) (v w : Nat) :
    stepVer (stepVer acc v) w = stepVer (stepVer acc w) v := by
  cases acc <;> simp [stepVer] <;> omega

/-- The version held by a latest map after folding a record list, at key `k`:
the running maximum of the versions of the records with id `k`. -/
lemma latestFold_at (l : List Addon) (m : MapA) (k : String) :
    ((l.foldl (fun acc a => addAddonIfLatest a acc) m) k).map Addon.version =
      foldVer (fun a => a.id == k) l ((m k).map Addon.version) := by
  induction l generalizing m with
  | nil => rfl
  | cons a l ih =>
    rw [List.foldl_cons, foldVer_cons, ih]
    congr 1
    rw [addAddonIfLatest_at]
    by_cases hk : k = a.id
    · have hb : (a.id == k) = true := by simp [hk]
      rw [if_pos hk, hb, if_pos rfl, hk]
      cases hm : m a.id with
      | none => simp [stepVer, hm]
      | some lk =>
        by_cases hv : lk.version < a.version <;>
          simp [stepVer, hm, hv] <;> omega
    · have hb : (a.id == k) = false := by
        simp [beq_iff_eq]; exact fun h => hk h.symm
      rw [if_neg hk, hb, if_neg (by simp)]

/-- The version held by the by-repo map after folding a record list, at a
(repo, id) pair. -/
lemma byRepoFold_at (l : List Addon) (m : MapByRepo) (r k : String) :
    (atRK (l.foldl (fun acc a => addAddonIfLatestByRepo a.origin a acc) m) r k).map
        Addon.version =
      foldVer (fun a => a.origin == r && a.id == k) l
        ((atRK m r k).map Addon.version) := by
  induction l generalizing m with
  | nil => rfl
  | cons a l ih =>
    rw [List.foldl_cons, foldVer_cons, ih]
    congr 1
    rw [addAddonIfLatestByRepo_at]
    by_cases hrk : r = a.origin ∧ k = a.id
    · have hb : (a.origin == r && a.id == k) = true := by
        simp [hrk.1.symm, hrk.2.symm]
      rw [if_pos hrk, hb, if_pos rfl, hrk.1, hrk.2]
      cases hm : atRK m a.origin a.id with
      | none => simp [stepVer, hm]
      | some lk =>
        by_cases hv : lk.version < a.version <;>
          simp [stepVer, hm, hv] <;> omega
    · have hb : (a.origin == r && a.id == k) = false := by
        rcases not_and_or.mp hrk with h | h <;>
          simp [beq_iff_eq] <;> intro he
        · exact absurd he.symm h
        · exact fun hi => h hi.symm
      rw [if_neg hrk, hb, if_neg (by simp)]

/-- Permutation invariance of the running version maximum. -/
lemma foldVer_perm (q : Addon → Bool) {l1 l2 : List Addon}
    (h : l1.Perm l2) (acc : Option Nat) :
    foldVer q l1 acc = foldVer q l2 acc := by
  induction h generalizing acc with
  | nil => rfl
  | cons x _ ih => rw [foldVer_cons, foldVer_cons, ih]
  | swap x y l =>
    rw [foldVer_cons, foldVer_cons, foldVer_cons, foldVer_cons]
    congr 1
    cases hx : q x <;> cases hy : q y <;> simp [stepVer_comm]
  | trans _ _ ih1 ih2 => rw [ih1, ih2]

/-- The running maximum only grows along the fold. -/
lemma foldVer_acc_le (q : Addon → Bool) (l : List Addon) :
    ∀ (acc : Option Nat) (w : Nat), acc = some w →
      ∃ v, foldVer q l acc = some v ∧ w ≤ v := by
  induction l with
  | nil => exact fun acc w h => ⟨w, by simp [foldVer_nil, h], le_refl w⟩
  | cons a l ih =>
    intro acc w h
    subst h
    by_cases hq : q a = true
    · obtain ⟨v, hv, hle⟩ := ih (stepVer (some w) a.version) (max w a.version)
        (by simp [stepVer])
      exact ⟨v, by rw [foldVer_cons, hq, if_pos rfl]; exact hv,
        le_trans (le_max_left _ _) hle⟩
    · obtain ⟨v, hv, hle⟩ := ih (some w) w rfl
      have hq' : q a = false := by simpa using hq
      exact ⟨v, by rw [foldVer_cons, hq']; simpa using hv, hle⟩

/-- Every selected record's version is dominated by the final running
maximum. -/
lemma foldVer_mem (q : Addon → Bool) (a : Addon) (hq : q a = true) :
    ∀ (l : List Addon), a ∈ l → ∀ acc : Option Nat,
      ∃ v, foldVer q l acc = some v ∧ a.version ≤ v := by
  intro l
  induction l with
  | nil => intro h; cases h
  | cons b l ih =>
    intro hmem acc
    rcases List.mem_cons.mp hmem with rfl | hmem'
    · have hst : ∃ w, stepVer acc a.version = some w ∧ a.version ≤ w := by
        cases acc <;> simp [stepVer] <;> omega
      obtain ⟨w, hw, hle⟩ := hst
      obtain ⟨v, hv, hwv⟩ := foldVer_acc_le q l _ w hw
      refine ⟨v, ?_, le_trans hle hwv⟩
      rw [foldVer_cons, hq, if_pos rfl]
      exact hv
    · obtain ⟨v, hv, hle⟩ := ih hmem' (if q b then stepVer acc b.version else acc)
      exact ⟨v, by rw [foldVer_cons]; exact hv, hle⟩

/-! ## Decomposition of the setup fold into its three maps -/

def latestFold (records : List Addon) : MapA :=
  records.foldl (fun acc a => addAddonIfLatest a acc) emptyMapA

lemma setupFold_fst (repos : List RepoInfo) (l : List Addon) :
    ∀ (o p : MapA) (b : MapByRepo),
      (l.foldl (setupStep repos) (o, p, b)).1 =
        (l.filter (fun x => isFromOfficialRepo repos x true)).foldl
          (fun acc a => addAddonIfLatest a acc) o := by
  induction l with
  | nil => intro o p b; rfl
  | cons a l ih =>
    intro o p b
    cases h : isFromOfficialRepo repos a true <;>
      simp [setupStep, h, List.filter_cons, ih]

lemma setupFold_snd (repos : List RepoInfo) (l : List Addon) :
    ∀ (o p : MapA) (b : MapByRepo),
      (l.foldl (setupStep repos) (o, p, b)).2.1 =
        (l.filter (fun x => !(isFromOfficialRepo repos x true))).foldl
          (fun acc a => addAddonIfLatest a acc) p := by
  induction l with
  | nil => intro o p b; rfl
  | cons a l ih =>
    intro o p b
    cases h : isFromOfficialRepo repos a true <;>
      simp [setupStep, h, List.filter_cons, ih]

lemma setupFold_thd (repos : List RepoInfo) (l : List Addon) :
    ∀ (o p : MapA) (b : MapByRepo),
      (l.foldl (setupStep repos) (o, p, b)).2.2 =
        l.foldl (fun acc a => addAddonIfLatestByRepo a.origin a acc) b := by
  induction l with
  | nil => intro o p b; rfl
  | cons a l ih =>
    intro o p b
    cases h : isFromOfficialRepo repos a true <;>
      simp [setupStep, h, ih]

/-! ## Claims about the index builder -/

/-- Two distinct records sharing id and version, used to exhibit the order
dependence of the rebuild on version ties. -/
def addonP1 : Addon := { id := "A", origin := "repoX", path := "p1", version := 1 }

def addonP2 : Addon := { id := "A", origin := "repoX", path := "p2", version := 1 }

/-- Counterexample to claim C5 as stated: two permutations of the same input
sequence yield different `latestPrivate` maps — on a version tie the rebuild
keeps whichever record it meets first, so the exact stored record depends on
the order. -/
theorem setupLatestVersionMaps_perm_counterexample :
    ([addonP1, addonP2] : List Addon).Perm [addonP2, addonP1] ∧
    (setupLatestVersionMaps [] [addonP1, addonP2]).2.1 "A" = some addonP1 ∧
    (setupLatestVersionMaps [] [addonP2, addonP1]).2.1 "A" = some addonP2 ∧
    (setupLatestVersionMaps [] [addonP1, addonP2]).2.1 "A" ≠
      (setupLatestVersionMaps [] [addonP2, addonP1]).2.1 "A" := by
  refine ⟨?_, by decide, by decide, by decide⟩
  exact List.Perm.swap addonP2 addonP1 []

/-- Claim C5 (amended): for any two permutations of the input record sequence,
the three rebuilt maps agree in keys and in the versions of the stored
records (the exact record may differ between permutations when distinct
records tie on the maximal version). -/
theorem setupLatestVersionMaps_perm_version_eq (repos : List RepoInfo)
    (l1 l2 : List Addon) (r k : String) (h : l1.Perm l2) :
    ((setupLatestVersionMaps repos l1).1 k).map Addon.version =
      ((setupLatestVersionMaps repos l2).1 k).map Addon.version ∧
    ((setupLatestVersionMaps repos l1).2.1 k).map Addon.version =
      ((setupLatestVersionMaps repos l2).2.1 k).map Addon.version ∧
    (atRK (setupLatestVersionMaps repos l1).2.2 r k).map Addon.version =
      (atRK (setupLatestVersionMaps repos l2).2.2 r k).map Addon.version := by
  refine ⟨?_, ?_, ?_⟩
  · rw [setupLatestVersionMaps, setupLatestVersionMaps,
      setupFold_fst, setupFold_fst, latestFold_at, latestFold_at]
    exact foldVer_perm _ (h.filter _) _
  · rw [setupLatestVersionMaps, setupLatestVersionMaps,
      setupFold_snd, setupFold_snd, latestFold_at, latestFold_at]
    exact foldVer_perm _ (h.filter _) _
  · rw [setupLatestVersionMaps, setupLatestVersionMaps,
      setupFold_thd, setupFold_thd, byRepoFold_at, byRepoFold_at]
    exact foldVer_perm _ h _

/-- Witness for the amended C5, at the two permuted concrete inputs of the
counterexample. -/
theorem setupLatestVersionMaps_perm_version_eq_witness :
    ((setupLatestVersionMaps [] [addonP1, addonP2]).1 "A").map Addon.version =
      ((setupLatestVersionMaps [] [addonP2, addonP1]).1 "A").map Addon.version ∧
    ((setupLatestVersionMaps [] [addonP1, addonP2]).2.1 "A").map Addon.version =
      ((setupLatestVersionMaps [] [addonP2, addonP1]).2.1 "A").map Addon.version ∧
    (atRK (setupLatestVersionMaps [] [addonP1, addonP2]).2.2 "repoX" "A").map
        Addon.version =
      (atRK (setupLatestVersionMaps [] [addonP2, addonP1]).2.2 "repoX" "A").map
        Addon.version :=
  setupLatestVersionMaps_perm_version_eq [] [addonP1, addonP2] [addonP2, addonP1]
    "repoX" "A" (List.Perm.swap addonP2 addonP1 [])

/-- Claim C6: after a rebuild, the record stored for a package id dominates in
version every input record with that id classified into the same map, and the
per-repo entry dominates every input record with the same origin and id. -/
theorem setupLatestVersionMaps_monotonic (repos : List RepoInfo)
    (records : List Addon) (a : Addon) (ha : a ∈ records) :
    (isFromOfficialRepo repos a true = true →
      ∃ stored, (setupLatestVersionMaps repos records).1 a.id = some stored ∧
        a.version ≤ stored.version) ∧
    (isFromOfficialRepo repos a true = false →
      ∃ stored, (setupLatestVersionMaps repos records).2.1 a.id = some stored ∧
        a.version ≤ stored.version) ∧
    (∃ stored,
      atRK (setupLatestVersionMaps repos records).2.2 a.origin a.id = some stored ∧
        a.version ≤ stored.version) := by
  refine ⟨?_, ?_, ?_⟩
  · intro hoff
    have hmem : a ∈ records.filter (fun x => isFromOfficialRepo repos x true) :=
      List.mem_filter.mpr ⟨ha, hoff⟩
    obtain ⟨v, hv, hle⟩ := foldVer_mem (fun x => x.id == a.id) a (by simp)
      (records.filter (fun x => isFromOfficialRepo repos x true)) hmem none
    have hchar := latestFold_at
      (records.filter (fun x => isFromOfficialRepo repos x true)) emptyMapA a.id
    rw [setupLatestVersionMaps, setupFold_fst]
    rw [show (emptyMapA a.id).map Addon.version = none from rfl] at hchar
    rw [hv] at hchar
    obtain ⟨stored, hs, hsv⟩ := Option.map_eq_some'.mp hchar
    exact ⟨stored, hs, hsv ▸ hle⟩
  · intro hpriv
    have hmem : a ∈ records.filter (fun x => !(isFromOfficialRepo repos x true)) :=
      List.mem_filter.mpr ⟨ha, by simp [hpriv]⟩
    obtain ⟨v, hv, hle⟩ := foldVer_mem (fun x => x.id == a.id) a (by simp)
      (records.filter (fun x => !(isFromOfficialRepo repos x true))) hmem none
    have hchar := latestFold_at
      (records.filter (fun x => !(isFromOfficialRepo repos x true))) emptyMapA a.id
    rw [setupLatestVersionMaps, setupFold_snd]
    rw [show (emptyMapA a.id).map Addon.version = none from rfl] at hchar
    rw [hv] at hchar
    obtain ⟨stored, hs, hsv⟩ := Option.map_eq_some'.mp hchar
    exact ⟨stored, hs, hsv ▸ hle⟩
  · obtain ⟨v, hv, hle⟩ := foldVer_mem
      (fun x => x.origin == a.origin && x.id == a.id) a (by simp) records ha none
    have hchar := byRepoFold_at records emptyByRepo a.origin a.id
    rw [setupLatestVersionMaps, setupFold_thd]
    rw [show ((atRK emptyByRepo a.origin a.id).map Addon.version) = none from rfl]
      at hchar
    rw [hv] at hchar
    obtain ⟨stored, hs, hsv⟩ := Option.map_eq_some'.mp hchar
    exact ⟨stored, hs, hsv ▸ hle⟩

/-- Witness for C6 at a concrete private-classified record. -/
theorem setupLatestVersionMaps_monotonic_witness :
    (isFromOfficialRepo [] addonP1 true = true →
      ∃ stored, (setupLatestVersionMaps [] [addonP1, addonP2]).1 addonP1.id =
        some stored ∧ addonP1.version ≤ stored.version) ∧
    (isFromOfficialRepo [] addonP1 true = false →
      ∃ stored, (setupLatestVersionMaps [] [addonP1, addonP2]).2.1 addonP1.id =
        some stored ∧ addonP1.version ≤ stored.version) ∧
    (∃ stored,
      atRK (setupLatestVersionMaps [] [addonP1, addonP2]).2.2 addonP1.origin
          addonP1.id = some stored ∧ addonP1.version ≤ stored.version) :=
  setupLatestVersionMaps_monotonic [] [addonP1, addonP2] addonP1 (by decide)

/-- Claim C7: the rebuild feeds each record to exactly one of the two
candidate-latest insertions — `latestOfficial` is exactly the fold of the
records selected by the strict (path-checked) predicate, `latestPrivate`
exactly the fold of the complement — and each input record lands in exactly
one of the two selections. -/
theorem setupLatestVersionMaps_partition (repos : List RepoInfo)
    (records : List Addon) (a : Addon) (ha : a ∈ records) :
    (setupLatestVersionMaps repos records).1 =
      latestFold (records.filter (fun x => isFromOfficialRepo repos x true)) ∧
    (setupLatestVersionMaps repos records).2.1 =
      latestFold (records.filter (fun x => !(isFromOfficialRepo repos x true))) ∧
    ((a ∈ records.filter (fun x => isFromOfficialRepo repos x true) ∧
        a ∉ records.filter (fun x => !(isFromOfficialRepo repos x true))) ∨
      (a ∉ records.filter (fun x => isFromOfficialRepo repos x true) ∧
        a ∈ records.filter (fun x => !(isFromOfficialRepo repos x true)))) := by
  refine ⟨setupFold_fst repos records emptyMapA emptyMapA emptyByRepo,
    setupFold_snd repos records emptyMapA emptyMapA emptyByRepo, ?_⟩
  cases h : isFromOfficialRepo repos a true
  · exact Or.inr (by simp [List.mem_filter, ha, h])
  · exact Or.inl (by simp [List.mem_filter, ha, h])

/-- Witness for C7 at a concrete input. -/
theorem setupLatestVersionMaps_partition_witness :
    (setupLatestVersionMaps [] [addonP1, addonP2]).1 =
      latestFold ([addonP1, addonP2].filter (fun x => isFromOfficialRepo [] x true)) ∧
    (setupLatestVersionMaps [] [addonP1, addonP2]).2.1 =
      latestFold
        ([addonP1, addonP2].filter (fun x => !(isFromOfficialRepo [] x true))) ∧
    ((addonP1 ∈ [addonP1, addonP2].filter (fun x => isFromOfficialRepo [] x true) ∧
        addonP1 ∉
          [addonP1, addonP2].filter (fun x => !(isFromOfficialRepo [] x true))) ∨
      (addonP1 ∉ [addonP1, addonP2].filter (fun x => isFromOfficialRepo [] x true) ∧
        addonP1 ∈
          [addonP1, addonP2].filter (fun x => !(isFromOfficialRepo [] x true)))) :=
  setupLatestVersionMaps_partition [] [addonP1, addonP2] addonP1 (by decide)

/-! ## Catalog loader -/

/-- Counterexample to claim C8 as stated: the by-repo structure is a multimap,
so two compatible records with the same origin and id are both retained — the
(repo, id) bucket holds two records, not at most one. -/
theorem loadAddonsFromDatabase_duplicate_counterexample :
    ((loadAddonsFromDatabase (fun _ => true) [addonP1, addonP2]) "repoX" "A").length
        = 2 ∧
    ¬ ((loadAddonsFromDatabase (fun _ => true) [addonP1, addonP2]) "repoX" "A").length
        ≤ 1 := by
  constructor <;> decide

lemma loadFold_at (isCompatible : Addon → Bool) (l : List Addon) :
    ∀ (m : ByRepoMulti) (o i : String),
      (l.foldl (loadStep isCompatible) m) o i =
        m o i ++ l.filter (fun a => isCompatible a && o == a.origin && i == a.id) := by
  induction l with
  | nil => intro m o i; simp
  | cons a l ih =>
    intro m o i
    rw [List.foldl_cons, ih, List.filter_cons]
    by_cases hc : isCompatible a = true
    · by_cases hoi : o = a.origin ∧ i = a.id
      · have : (isCompatible a && o == a.origin && i == a.id) = true := by
          simp [hc, hoi.1, hoi.2]
        rw [if_pos this]
        simp [loadStep, hc, hoi]
      · have : (isCompatible a && o == a.origin && i == a.id) = false := by
          by_cases h1 : o = a.origin
          · by_cases h2 : i = a.id
            · exact absurd ⟨h1, h2⟩ hoi
            · simp [h2]
          · simp [h1]
        rw [if_neg (by simp [this])]
        simp [loadStep, hc, hoi]
    · have hc' : isCompatible a = false := by simpa using hc
      rw [if_neg (by simp [hc'])]
      simp [loadStep, hc']

/-- Claim C8 (amended): after a load, each (repo, id) bucket of the by-repo
structure holds exactly the compatible input records with that origin and id,
in input order — duplicates within a bucket are all retained, not collapsed. -/
theorem loadAddonsFromDatabase_filter_eq (isCompatible : Addon → Bool)
    (allAddons : List Addon) (o i : String) :
    loadAddonsFromDatabase isCompatible allAddons o i =
      allAddons.filter (fun a => isCompatible a && o == a.origin && i == a.id) := by
  rw [loadAddonsFromDatabase, loadFold_at]
  rfl

/-! ## Registry configuration parsing -/

/-- Counterexample to claim C9 as stated: a configuration entry with no bar
delimiter is not rejected — initialisation silently constructs a registry
entry whose repo id and origin are both the whole entry string (the front and
the back of the one-element split). -/
theorem loadOfficialRepoInfos_missing_delimiter_counterexample :
    loadOfficialRepoInfos "repoX" =
      [{ m_repoId := "repoX", m_origin := "repoX" }] := by
  decide

lemma splitList_eq_single (c : Char) (l : List Char)
    (h : ∀ x ∈ l, x ≠ c) : splitList c l = [l] := by
  induction l with
  | nil => rfl
  | cons x xs ih =>
    have hx : (x == c) = false := by
      simp [beq_iff_eq]
      exact h x (List.mem_cons_self x xs)
    rw [splitList, hx]
    simp only [Bool.false_eq_true, if_false]
    rw [ih (fun y hy => h y (List.mem_cons_of_mem x hy))]

/-- Claim C9 (amended): a configuration entry lacking the bar delimiter is not
an observable failure — registry initialisation constructs from it the entry
whose repo id and origin are both the entire entry string. -/
theorem loadOfficialRepoInfos_missing_delimiter_entry (config entry : String)
    (hmem : entry ∈ splitChar ',' config)
    (hnd : ∀ c ∈ entry.data, c ≠ '|') :
    ({ m_repoId := entry, m_origin := entry } : RepoInfo) ∈
      loadOfficialRepoInfos config := by
  have hsplit : splitChar '|' entry = [entry] := by
    rw [splitChar, splitList_eq_single '|' entry.data hnd]
    rfl
  have := List.mem_map_of_mem
    (fun addonRepo =>
      let tmpRepoInfo := splitChar '|' addonRepo
      ({ m_repoId := tmpRepoInfo.headD "",
         m_origin := tmpRepoInfo.getLastD "" } : RepoInfo)) hmem
  simpa [loadOfficialRepoInfos, hsplit] using this

/-- Witness for the amended C9: the delimiter-less entry of a two-entry
configuration yields the degenerate registry entry. -/
theorem loadOfficialRepoInfos_missing_delimiter_entry_witness :
    ({ m_repoId := "repoX", m_origin := "repoX" } : RepoInfo) ∈
      loadOfficialRepoInfos "official1|https://foo,repoX" :=
  loadOfficialRepoInfos_missing_delimiter_entry "official1|https://foo,repoX"
    "repoX" (by decide) (by decide)

end AddonRepos
